import Mathlib

/-!
Verification of the Optojump treadmill-data extractor (`ojdata.py`).

The development shallowly embeds the four core components of the program:

* `parse_row` — the sparse-cell row reconstruction (`parse_row` in the source);
* `parse_filename` / `classifyMusic` — the filename token parser;
* `process_table` — the treadmill trial extractor (`process_single_file`,
  starting from the reconstructed rows of the `Dati OJ` worksheet; XML
  location and the surrounding UI are out of scope);
* `process_multiple_files` — the batch aggregator.

Modelling conventions: Python strings are `String`, with the character-level
operations (split, strip, upper, substring search) reimplemented on
`List Char` so that they evaluate inside the kernel; `None`-able values are
`Option`; Python `float` values are modelled as exact rationals `ℚ`, and
`float(...)` string parsing is modelled by `parseDecimalChars`, covering the
sign / integer / decimal-point forms that occur in the instrument exports;
raised `ValueError`s are an explicit `ExtractError` sum type, one constructor
per distinct raise site of the modelled code.
-/

/-! ### Character-level string utilities (Python `str` operations) -/

/-- Python `s.split(sep)` on a character separator (splits on every
occurrence; `"".split(sep)` is `[""]`). -/
def splitChars (sep : Char) : List Char → List (List Char)
  | [] => [[]]
  | c :: cs =>
    match splitChars sep cs with
    | [] => if c == sep then [[], []] else [[c]]
    | h :: t => if c == sep then [] :: h :: t else (c :: h) :: t

/-- Python `s.startswith(pat)` on character lists. -/
def hasPrefixChars : List Char → List Char → Bool
  | [], _ => true
  | _ :: _, [] => false
  | a :: as, b :: bs => a == b && hasPrefixChars as bs

/-- Python `pat in s` (substring containment) on character lists. -/
def hasInfixChars (pat : List Char) : List Char → Bool
  | [] => hasPrefixChars pat []
  | c :: rest => hasPrefixChars pat (c :: rest) || hasInfixChars pat rest

/-- Python `s.endswith(pat)` on character lists. -/
def hasSuffixChars (pat l : List Char) : Bool :=
  hasPrefixChars pat.reverse l.reverse

/-- Python `s.strip()` (whitespace strip, as performed by `float`). -/
def trimChars (l : List Char) : List Char :=
  ((l.dropWhile Char.isWhitespace).reverse.dropWhile Char.isWhitespace).reverse

/-- Index of the first element satisfying `p` (`list.index` / first match of
an `enumerate` scan in the source). -/
def firstIdx (p : α → Bool) : List α → Option Nat
  | [] => none
  | a :: as => if p a then some 0 else (firstIdx p as).map (· + 1)

/-! ### Numeric parsing (Python `float`) -/

/-- Decimal digit run to a natural number. -/
def digitsToNat (l : List Char) : Nat :=
  l.foldl (fun a c => a * 10 + (c.toNat - 48)) 0

/-- Unsigned part of Python `float(s)`: digit run with an optional single
decimal point (`"1"`, `"1."`, `".5"`, `"1.25"`); anything else fails.
Exponent and infinity forms do not occur in the instrument exports and are
modelled as parse failures. -/
def parseUnsignedChars (cs : List Char) : Option ℚ :=
  let ip := cs.takeWhile Char.isDigit
  let rest := cs.dropWhile Char.isDigit
  match rest with
  | [] => if ip.isEmpty then none else some ((digitsToNat ip : ℚ))
  | '.' :: fp =>
    if fp.all Char.isDigit && !(ip.isEmpty && fp.isEmpty) then
      some ((digitsToNat ip : ℚ) + (digitsToNat fp : ℚ) / (10 : ℚ) ^ fp.length)
    else none
  | _ => none

/-- Signed part of Python `float(s)` after whitespace stripping. -/
def parseDecimalChars : List Char → Option ℚ
  | '-' :: t => (parseUnsignedChars t).map (fun q => -q)
  | '+' :: t => parseUnsignedChars t
  | cs => parseUnsignedChars cs

/-- Python `float(s)`. -/
def pyFloat (s : String) : Option ℚ :=
  parseDecimalChars (trimChars s.toList)

/-- Python `float(s.replace(",", "."))` — the locale-aware numeric parse
used for every cell of the data table. -/
def parseComma (s : String) : Option ℚ :=
  pyFloat (String.mk (s.toList.map (fun c => if c == ',' then '.' else c)))

/-! ### Sparse row reconstruction (`parse_row`) -/

/-- One XML `<Cell>`: an optional explicit 1-based `ss:Index` attribute and
an optional `<Data>` text payload. -/
structure Cell where
  index : Option Nat
  data : Option String
deriving DecidableEq

/-- A reconstructed row: dense positional sequence of optional text values. -/
abbrev Row := List (Option String)

/-- A reconstructed table: the header row followed by the data rows. -/
abbrev Table := List Row

/-- Body of `parse_row`, with the running 1-based position counter explicit.
For a cell with explicit index `idx` the `while current_index < index_val`
loop appends `idx - cur` `None` placeholders and leaves the counter at
`max cur idx`; the cell value is appended and the counter advances by one. -/
def parseRowFrom : Nat → List Cell → List (Option String)
  | _, [] => []
  | cur, c :: cs =>
    match c.index with
    | none => c.data :: parseRowFrom (cur + 1) cs
    | some idx =>
      List.replicate (idx - cur) none ++ (c.data :: parseRowFrom (max cur idx + 1) cs)

/-- The source `parse_row`: reconstruct a dense row from sparse cells,
starting the position counter at 1. -/
def parse_row (cells : List Cell) : List (Option String) :=
  parseRowFrom 1 cells

/-- The 1-based position at which each cell's value lands, in cell order,
when reconstruction starts with counter `cur`. -/
def cellPositions : Nat → List Cell → List Nat
  | _, [] => []
  | cur, c :: cs =>
    let p := match c.index with | none => cur | some idx => max cur idx
    p :: cellPositions (p + 1) cs

/-- Value of the position counter after all cells are consumed. -/
def finalCtr : Nat → List Cell → Nat
  | cur, [] => cur
  | cur, c :: cs =>
    finalCtr ((match c.index with | none => cur | some idx => max cur idx) + 1) cs

/-! ### Filename token parsing (`parse_filename`) -/

/-- Error taxonomy of the extractor: one constructor per distinct raise
site of the modelled code (worksheet / XML location errors happen before the
modelled entry point and are out of scope). -/
inductive ExtractError where
  | insufficientRows
  | missingTreadmill
  | insufficientTokens
  | noValidStop
  | invalidStopTime (v : String)
deriving DecidableEq

/-- The message text of each raise site in the source. The filename raise
sites additionally interpolate the offending filename, and the batch loop
prefixes the filename when reporting; the interpolations are dropped here.
Note that the `noValidStop` site is raised with a message naming both the
missing-STOP-row and the non-numeric-stop-time conditions. -/
def ExtractError.message : ExtractError → String
  | .insufficientRows => "Numero insufficiente di righe nel file."
  | .missingTreadmill => "Il file non contiene Treadmill."
  | .insufficientTokens => "Il file non ha abbastanza token per estrarre sessione e musica."
  | .noValidStop => "Nessuna riga STOP valida o Tempo[s] non numerico."
  | .invalidStopTime v => "Valore non valido in Tempo[s] nella riga STOP: " ++ v

/-- Underscore tokens of a filename: `os.path.basename`, then a
case-insensitive `.xml` suffix strip, then `split("_")`. -/
def fnTokens (filename : String) : List String :=
  let base := ((splitChars '/' filename.toList).getLastD [])
  let stem :=
    if hasSuffixChars ".xml".toList (base.map Char.toLower) then
      base.take (base.length - 4)
    else base
  (splitChars '_' stem).map String.mk

/-- Index of the literal token `"Treadmill"`, when present. -/
def treadmillIdxOf (filename : String) : Option Nat :=
  firstIdx (fun t => t == "Treadmill") (fnTokens filename)

/-- Music token classification: strip the `.`-delimited suffix, then
case-insensitively map prefix `NM` to `"no musica"`, else prefix `M` to
`"musica"`, else pass the stripped token through. -/
def stripDot (raw : String) : String :=
  if raw.toList.contains '.' then String.mk ((splitChars '.' raw.toList).headD [])
  else raw

/-- The `musica` branch of `parse_filename` in the source. -/
def classifyMusic (raw : String) : String :=
  if hasPrefixChars "NM".toList ((stripDot raw).toList.map Char.toUpper) then "no musica"
  else if hasPrefixChars "M".toList ((stripDot raw).toList.map Char.toUpper) then "musica"
  else stripDot raw

/-- The source `parse_filename`: surname, given name, session label and
music condition from the structured filename. -/
def parse_filename (filename : String) :
    Except ExtractError (String × String × String × String) :=
  let tokens := fnTokens filename
  match firstIdx (fun t => t == "Treadmill") tokens with
  | none => .error .missingTreadmill
  | some tidx =>
    let surname := tokens.headD ""
    let name := " ".intercalate ((tokens.drop 1).take (tidx - 1))
    if tokens.length < tidx + 11 then .error .insufficientTokens
    else
      .ok (surname, name, tokens.getD (tidx + 9) "",
        classifyMusic (tokens.getD (tidx + 10) ""))

/-! ### Trial extraction (`process_single_file`, from the reconstructed rows) -/

instance [DecidableEq ε] [DecidableEq α] : DecidableEq (Except ε α) := fun x y =>
  match x, y with
  | .ok a, .ok b => decidable_of_iff (a = b) (by simp)
  | .error e, .error f => decidable_of_iff (e = f) (by simp)
  | .ok _, .error _ => isFalse (by simp)
  | .error _, .ok _ => isFalse (by simp)

/-- Header-name column lookup with positional fallback:
`header.index(nm)` guarded by `try ... except ValueError`. -/
def headerCol (header : Row) (nm : String) (fallback : Nat) : Nat :=
  match firstIdx (fun c => c == some nm) header with
  | some i => i
  | none => fallback

/-- The marker column (`hash_col` in the source): header cell `"#"`, with
positional fallback 23. -/
def tableHashCol (rows : Table) : Nat :=
  headerCol (rows.headD []) "#" 23

/-- The time column (`tempo_col` in the source): header cell `"Tempo[s]"`,
with positional fallback 25. -/
def tableTempoCol (rows : Table) : Nat :=
  headerCol (rows.headD []) "Tempo[s]" 25

/-- Python `len(row) > hash_col and row[hash_col] and "Impulso esterno STOP"
in row[hash_col]`. -/
def isStopRow (hc : Nat) (row : Row) : Bool :=
  match row.getD hc none with
  | none => false
  | some s => !s.toList.isEmpty && hasInfixChars "Impulso esterno STOP".toList s.toList

/-- The STOP-row scan of the source: first row (the scan starts at index 0,
so the header row is included) whose marker cell contains the sentinel, and
its parsed `Tempo[s]` value. A found row with a missing or empty time cell
leaves `T_stop = None` in the source and falls through to the same raise
site as the no-STOP-row case (`noValidStop`); a non-empty unparsable time
cell raises at the dedicated site (`invalidStopTime`). -/
def stopSearch (rows : Table) : Except ExtractError (Nat × ℚ) :=
  match firstIdx (isStopRow (tableHashCol rows)) rows with
  | none => .error .noValidStop
  | some i =>
    match (rows.getD i []).getD (tableTempoCol rows) none with
    | none => .error .noValidStop
    | some s =>
      if s.toList.isEmpty then .error .noValidStop
      else
        match parseComma s with
        | none => .error (.invalidStopTime s)
        | some t => .ok (i, t)

/-- Python `len(row) > tempo_col and row[tempo_col]` followed by the
`float` parse of the time cell and the inclusive window test
`T_start <= t_val <= T_stop`; rows failing any step are skipped silently. -/
def rowInWindow (tc : Nat) (a b : ℚ) (row : Row) : Bool :=
  match row.getD tc none with
  | none => false
  | some s =>
    if s.toList.isEmpty then false
    else
      match parseComma s with
      | none => false
      | some t => decide (a ≤ t) && decide (t ≤ b)

/-- Python `col < len(row) and row[col] and row[col].strip()` followed by the
`float` parse of the measurement cell; `none` when the cell is absent,
empty, blank, or unparsable. -/
def cellVal (col : Nat) (row : Row) : Option ℚ :=
  match row.getD col none with
  | none => none
  | some s =>
    if s.toList.isEmpty || (trimChars s.toList).isEmpty then none
    else parseComma s

/-- The parsable, non-blank values of one measurement column across the
contributing rows, in row order. -/
def colValues (col : Nat) (rows : Table) : List ℚ :=
  rows.filterMap (cellVal col)

/-- The `sums[col] / counts[col]` reduction: arithmetic mean of the
contributing values, `none` when no row contributed. -/
def colMean (col : Nat) (rows : Table) : Option ℚ :=
  let vs := colValues col rows
  if vs.isEmpty then none else some (vs.sum / (vs.length : ℚ))

/-- Column-position-dependent reduction over the contributing rows: the
column immediately right of the time column keeps the last valid value
(`last_values`), every other column the mean (`sums / counts`). -/
def reduceCols (tc ncols : Nat) (rows : Table) : List (Option ℚ) :=
  (List.range' (tc + 1) (ncols - (tc + 1))).map fun col =>
    if col = tc + 1 then (colValues col rows).getLast? else colMean col rows

/-- The result record of `process_single_file`. -/
structure TrialResult where
  cognome : String
  nome : String
  sessione : String
  musica : String
  t_start : ℚ
  t_stop : ℚ
  measurements : List (Option ℚ)
  measurementHeaders : Row
deriving DecidableEq

/-- The contributing rows of the reduction: `parsed_rows[1:stop_row_index]`
(the data rows strictly before the STOP row) restricted to those whose time
value lies in the window `[tStop - 900, tStop]`. -/
def windowRows (rows : Table) (i : Nat) (tStop : ℚ) : Table :=
  ((rows.take i).drop 1).filter (rowInWindow (tableTempoCol rows) (tStop - 900) tStop)

/-- Assembly of the result once the STOP row index and `T_stop` are known:
window `[T_stop - 900, T_stop]`, reduction over the data rows strictly
before the STOP row (`parsed_rows[1:stop_row_index]`). -/
def buildResult (rows : Table) (meta : String × String × String × String)
    (i : Nat) (tStop : ℚ) : TrialResult :=
  let header := rows.headD []
  let tc := tableTempoCol rows
  { cognome := meta.1, nome := meta.2.1, sessione := meta.2.2.1, musica := meta.2.2.2,
    t_start := tStop - 900, t_stop := tStop,
    measurements := reduceCols tc header.length (windowRows rows i tStop),
    measurementHeaders := header.drop (tc + 1) }

/-- The source `process_single_file`, from the reconstructed rows of the
`Dati OJ` worksheet (XML locating happens before this point and is out of
scope): row-count check, filename metadata, STOP search, windowed
reduction. -/
def process_table (rows : Table) (fn : String) : Except ExtractError TrialResult :=
  if rows.length < 2 then .error .insufficientRows
  else
    match parse_filename fn with
    | .error e => .error e
    | .ok meta =>
      match stopSearch rows with
      | .error e => .error e
      | .ok (i, t) => .ok (buildResult rows meta i t)

/-! ### Batch aggregation (`process_multiple_files`) -/

/-- The source `process_multiple_files`: per-file processing with error
isolation. `none` entries (absent uploads) are skipped; successes are
collected in order; the batch headers are those of the first success; a
failure is reported as a `(filename, error)` pair (the source formats this
pair into a UI error message) and processing continues. -/
def process_multiple_files :
    List (Option (Table × String)) → List TrialResult × Option Row × List (String × ExtractError)
  | [] => ([], none, [])
  | none :: rest => process_multiple_files rest
  | some (tbl, nm) :: rest =>
    let out := process_multiple_files rest
    match process_table tbl nm with
    | .ok r => (r :: out.1, some r.measurementHeaders, out.2.2)
    | .error e => (out.1, out.2.1, (nm, e) :: out.2.2)

/-! ### Concrete tables used by the witnesses and counterexamples -/

/-- Header of the sample tables: marker column 0, time column 1, three
measurement columns (distance-like, mean-reduced, never populated). -/
def hdrS : Row := [some "#", some "Tempo[s]", some "Distanza[m]", some "Pot[W]", some "Quota[m]"]

def rowS1 : Row := [some "", some "1", some "1", some "2", none]

def rowS2 : Row := [some "", some "2", some "3", some "4", none]

def rowStopS : Row := [some "Impulso esterno STOP", some "900", none, none, none]

/-- Sample table: two contributing data rows, STOP at `Tempo[s] = 900`. -/
def sampleRows : Table := [hdrS, rowS1, rowS2, rowStopS]

def sampleName : String := "Rossi_Mario_Treadmill_8km_h_01_01_2024_10_00_00_T1_NM.xml"

def sampleMeta : String × String × String × String := ("Rossi", "Mario", "T1", "no musica")

def rowT1 : Row := [some "", some "5", some "7", none, none]

def rowStopT : Row := [some "Impulso esterno STOP", some "10", none, none, none]

/-- Sample table whose STOP time is below 900, so the window start is
negative. -/
def sampleRows2 : Table := [hdrS, rowT1, rowStopT]

/-- A header row with no `"#"` and no `"Tempo[s]"` cell whose fallback
marker cell (index 23) contains the STOP sentinel and whose fallback time
cell (index 25) is numeric: the scan of the source selects this header row. -/
def cxHeader : Row :=
  List.replicate 23 none ++ [some "dati Impulso esterno STOP rilevato", none, some "100"]

/-- A data row that also carries the STOP sentinel, with a different time. -/
def cxRow : Row :=
  List.replicate 23 none ++ [some "Impulso esterno STOP", none, some "50"]

/-- Table on which the scan-domain reading of claim C8 fails: the first
data row carrying the sentinel is `cxRow` (time 50), but the source selects
the header row (time 100). -/
def cxTable : Table := [cxHeader, cxRow]

/-- Table whose STOP row has an empty time cell: the source raises at the
shared `noValidStop` site, not at the `invalidStopTime` site. -/
def cxEmptyTable : Table := [[some "#", some "Tempo[s]"], [some "Impulso esterno STOP", some ""]]

/-! ### Claims C5 and C8 as literally stated -/

/-- Claim C5 as literally stated: failure iff the `Treadmill` token is
absent or there are fewer than 11 tokens strictly after the Treadmill
index. -/
def C5AsStated : Prop :=
  ∀ fn, (parse_filename fn).isOk = false ↔
    (treadmillIdxOf fn = none ∨
      ∃ ti, treadmillIdxOf fn = some ti ∧ (fnTokens fn).length - (ti + 1) < 11)

/-- Scan-domain part of claim C8 as literally stated: on success, the stop
time is the parsed time cell of the first **data** row whose marker cell
contains the sentinel. -/
def C8ScanAsStated : Prop :=
  ∀ rows fn r, process_table rows fn = Except.ok r →
    ∃ i, firstIdx (isStopRow (tableHashCol rows)) (rows.drop 1) = some i ∧
      ∃ s, (rows.getD (i + 1) []).getD (tableTempoCol rows) none = some s ∧
        parseComma s = some r.t_stop

/-- Error-assignment part of claim C8 as literally stated: a sentinel row
whose time cell is empty fails with the dedicated unparseable-stop-time
error. -/
def C8EmptyTimeAsStated : Prop :=
  ∀ rows fn i, firstIdx (isStopRow (tableHashCol rows)) rows = some i →
    (rows.getD i []).getD (tableTempoCol rows) none = some "" →
    2 ≤ rows.length → (parse_filename fn).isOk = true →
    ∃ s, process_table rows fn = Except.error (ExtractError.invalidStopTime s)

/-! ### General lemmas about `firstIdx` -/

theorem firstIdx_eq_none_iff (p : α → Bool) (l : List α) :
    firstIdx p l = none ↔ ∀ a ∈ l, p a = false := by
  induction l with
  | nil => simp [firstIdx]
  | cons a t ih =>
    by_cases h : p a = true
    · simp [firstIdx, h]
    · simp only [Bool.not_eq_true] at h
      simp [firstIdx, h, ih]

theorem firstIdx_eq_some_facts (p : α → Bool) (d : α) (l : List α) :
    ∀ k, firstIdx p l = some k →
      k < l.length ∧ p (l.getD k d) = true ∧ ∀ j < k, p (l.getD j d) = false := by
  induction l with
  | nil => intro k hk; simp [firstIdx] at hk
  | cons a t ih =>
    intro k hk
    by_cases h : p a = true
    · simp [firstIdx, h] at hk
      subst hk
      simp [h]
    · simp only [Bool.not_eq_true] at h
      simp [firstIdx, h] at hk
      obtain ⟨k', hk', rfl⟩ := hk
      obtain ⟨h1, h2, h3⟩ := ih k' hk'
      refine ⟨by simpa using h1, by simpa using h2, ?_⟩
      intro j hj
      cases j with
      | zero => simpa using h
      | succ j' => simpa using h3 j' (by omega)

theorem firstIdx_eq_some_of (p : α → Bool) (d : α) (l : List α) :
    ∀ k, k < l.length → p (l.getD k d) = true →
      (∀ j < k, p (l.getD j d) = false) → firstIdx p l = some k := by
  induction l with
  | nil => intro k hk; simp at hk
  | cons a t ih =>
    intro k hk hp hbefore
    cases k with
    | zero => simp at hp; simp [firstIdx, hp]
    | succ k' =>
      have ha : p a = false := by simpa using hbefore 0 (by omega)
      have := ih k' (by simpa using hk) (by simpa using hp)
        (fun j hj => by simpa using hbefore (j + 1) (by omega))
      simp [firstIdx, ha, this]

theorem firstIdx_append (p : α → Bool) (l₁ l₂ : List α) :
    ∀ k, firstIdx p l₁ = some k → firstIdx p (l₁ ++ l₂) = some k := by
  induction l₁ with
  | nil => intro k hk; simp [firstIdx] at hk
  | cons a t ih =>
    intro k hk
    by_cases h : p a = true
    · simp [firstIdx, h] at hk ⊢; omega
    · simp only [Bool.not_eq_true] at h
      simp [firstIdx, h] at hk ⊢
      obtain ⟨k', hk', rfl⟩ := hk
      exact ⟨k', ih k' hk', rfl⟩

/-! ### Lemmas about the sparse row reconstruction -/

theorem parseRowFrom_length (cells : List Cell) :
    ∀ cur, (parseRowFrom cur cells).length + cur = finalCtr cur cells := by
  induction cells with
  | nil => intro cur; simp [parseRowFrom, finalCtr]
  | cons c cs ih =>
    intro cur
    cases h : c.index with
    | none =>
      simp only [parseRowFrom, finalCtr, h, List.length_cons]
      have := ih (cur + 1)
      omega
    | some idx =>
      simp only [parseRowFrom, finalCtr, h, List.length_append, List.length_replicate,
        List.length_cons]
      have := ih (max cur idx + 1)
      omega

theorem foldr_max_ge (l : List Nat) : ∀ p ∈ l, p ≤ l.foldr max 0 := by
  induction l with
  | nil => simp
  | cons a t ih =>
    intro p hp
    rcases List.mem_cons.mp hp with h | h
    · subst h; exact le_max_left _ _
    · exact le_trans (ih p h) (le_max_right _ _)

theorem cellPositions_ge (cells : List Cell) :
    ∀ cur p, p ∈ cellPositions cur cells → cur ≤ p := by
  induction cells with
  | nil => intro cur p hp; simp [cellPositions] at hp
  | cons c cs ih =>
    intro cur p hp
    cases h : c.index with
    | none =>
      simp only [cellPositions, h] at hp
      rcases List.mem_cons.mp hp with rfl | hp
      · exact le_refl _
      · exact le_trans (by omega) (ih (cur + 1) p hp)
    | some idx =>
      simp only [cellPositions, h] at hp
      rcases List.mem_cons.mp hp with rfl | hp
      · exact le_max_left _ _
      · exact le_trans (le_trans (le_max_left _ idx) (by omega)) (ih (max cur idx + 1) p hp)

theorem cellPositions_ne_nil (c : Cell) (cs : List Cell) (cur : Nat) :
    ∃ q qs, cellPositions cur (c :: cs) = q :: qs := by
  cases h : c.index <;> simp [cellPositions, h]

theorem cellPositions_foldr (cells : List Cell) (hne : cells ≠ []) :
    ∀ cur, (cellPositions cur cells).foldr max 0 + 1 = finalCtr cur cells := by
  induction cells with
  | nil => cases hne rfl
  | cons c cs ih =>
    intro cur
    rcases eq_or_ne cs [] with rfl | h0
    · cases h : c.index <;>
        simp [cellPositions, finalCtr, h, Nat.max_zero]
    · have key : ∀ P, (cellPositions (P + 1) cs).foldr max 0 + 1 = finalCtr (P + 1) cs →
          max P ((cellPositions (P + 1) cs).foldr max 0) + 1 = finalCtr (P + 1) cs := by
        intro P hih
        obtain ⟨d, ds, rfl⟩ := List.exists_cons_of_ne_nil h0
        obtain ⟨q, qs, hq⟩ := cellPositions_ne_nil d ds (P + 1)
        have hq1 : q ∈ cellPositions (P + 1) (d :: ds) := by rw [hq]; exact List.mem_cons_self _ _
        have h1 : P + 1 ≤ q := cellPositions_ge _ _ _ hq1
        have h2 : q ≤ (cellPositions (P + 1) (d :: ds)).foldr max 0 := foldr_max_ge _ _ hq1
        omega
      cases h : c.index with
      | none =>
        simp only [cellPositions, finalCtr, h, List.foldr_cons]
        exact key cur (ih h0 (cur + 1))
      | some idx =>
        simp only [cellPositions, finalCtr, h, List.foldr_cons]
        exact key (max cur idx) (ih h0 (max cur idx + 1))

theorem getD_replicate_append (l : List (Option String)) :
    ∀ n i, (List.replicate n (none : Option String) ++ l).getD i none =
      if i < n then none else l.getD (i - n) none := by
  intro n
  induction n with
  | zero => intro i; simp
  | succ m ih =>
    intro i
    cases i with
    | zero => simp [List.replicate_succ]
    | succ j =>
      rw [List.replicate_succ, List.cons_append, List.getD_cons_succ, ih j]
      simp [Nat.succ_sub_succ]

theorem parseRowFrom_getD_none (cells : List Cell) :
    ∀ cur i, i < (parseRowFrom cur cells).length →
      (cur + i) ∉ cellPositions cur cells →
      (parseRowFrom cur cells).getD i none = none := by
  induction cells with
  | nil => intro cur i hi _; simp [parseRowFrom] at hi
  | cons c cs ih =>
    intro cur i hi hmem
    cases h : c.index with
    | none =>
      cases i with
      | zero =>
        exfalso
        apply hmem
        simp [cellPositions, h]
      | succ j =>
        simp only [parseRowFrom, h, List.getD_cons_succ]
        simp only [parseRowFrom, h, List.length_cons] at hi
        apply ih (cur + 1) j (by omega)
        intro hc
        apply hmem
        simp only [cellPositions, h, List.mem_cons]
        right
        have e : cur + (j + 1) = cur + 1 + j := by omega
        rw [e]
        exact hc
    | some idx =>
      simp only [parseRowFrom, h] at hi ⊢
      rw [getD_replicate_append]
      by_cases hlt : i < idx - cur
      · simp [hlt]
      · rw [if_neg hlt]
        simp only [List.length_append, List.length_replicate, List.length_cons] at hi
        cases hk : i - (idx - cur) with
        | zero =>
          exfalso
          apply hmem
          simp only [cellPositions, h, List.mem_cons]
          left
          omega
        | succ j =>
          rw [List.getD_cons_succ]
          apply ih (max cur idx + 1) j (by omega)
          intro hc
          apply hmem
          simp only [cellPositions, h, List.mem_cons]
          right
          have e : cur + i = max cur idx + 1 + j := by omega
          rw [e]
          exact hc

/-! ### Claims C3 and C4: sparse row reconstruction -/

/-- Claim C3: the reconstruction maintains a position counter starting at 1;
a cell with an explicit index greater than the counter first pads with
`None` until the counter reaches that index, then appends the cell's payload
(`None` when absent) and advances the counter by one; a cell without an
explicit index appends its payload and advances the counter; the cell list
`[(index=1,"a"), (index=3,"c")]` reconstructs to `["a", None, "c"]`; a row
with no cells yields the empty row. -/
theorem claim_C3 :
    (∀ cells, parse_row cells = parseRowFrom 1 cells)
  ∧ (∀ cur c cs idx, Cell.index c = some idx → cur < idx →
      parseRowFrom cur (c :: cs) =
        List.replicate (idx - cur) none ++ (c.data :: parseRowFrom (idx + 1) cs))
  ∧ (∀ cur c cs, Cell.index c = none →
      parseRowFrom cur (c :: cs) = c.data :: parseRowFrom (cur + 1) cs)
  ∧ parse_row [Cell.mk (some 1) (some "a"), Cell.mk (some 3) (some "c")] =
      [some "a", none, some "c"]
  ∧ parse_row [] = [] := by
  refine ⟨fun _ => rfl, ?_, ?_, by decide, rfl⟩
  · intro cur c cs idx hidx hlt
    simp [parseRowFrom, hidx, Nat.max_eq_right (Nat.le_of_lt hlt)]
  · intro cur c cs hidx
    simp [parseRowFrom, hidx]

/-- Witness for claim C3: concrete instance of the padding equation, with
the counter at 1 and an explicit cell index 3. -/
theorem claim_C3_witness :
    Cell.index (Cell.mk (some 3) (some "c")) = some 3 ∧ 1 < 3 ∧
      parseRowFrom 1 [Cell.mk (some 3) (some "c")] =
        List.replicate 2 none ++ (some "c" :: parseRowFrom 4 []) :=
  ⟨rfl, by omega, claim_C3.2.1 1 (Cell.mk (some 3) (some "c")) [] 3 rfl (by omega)⟩

/-- Claim C4: the reconstructed row is positionally dense — its length is
the highest 1-based position referenced by the cells (the maximum of
`cellPositions`, which assigns each cell the position at which its value
lands, treating a cell whose explicit index is at most the counter as the
next sequential cell), and `row[i]` is `None` whenever no cell landed at
position `i + 1`. The final two conjuncts check the equal-or-smaller-index
edge case concretely. -/
theorem claim_C4 (cells : List Cell) :
    (parse_row cells).length = (cellPositions 1 cells).foldr max 0
  ∧ (∀ p ∈ cellPositions 1 cells, p ≤ (cellPositions 1 cells).foldr max 0)
  ∧ (∀ i, i < (parse_row cells).length → (i + 1) ∉ cellPositions 1 cells →
      (parse_row cells).getD i none = none)
  ∧ parse_row [Cell.mk (some 3) (some "c"), Cell.mk (some 1) (some "x")] =
      [none, none, some "c", some "x"]
  ∧ cellPositions 1 [Cell.mk (some 3) (some "c"), Cell.mk (some 1) (some "x")] = [3, 4] := by
  refine ⟨?_, fun p hp => foldr_max_ge _ p hp, ?_, by decide, by decide⟩
  · rcases eq_or_ne cells [] with rfl | hne
    · simp [parse_row, parseRowFrom, cellPositions]
    · have h1 := parseRowFrom_length cells 1
      have h2 := cellPositions_foldr cells hne 1
      unfold parse_row
      omega
  · intro i hi hmem
    have e : i + 1 = 1 + i := by omega
    rw [e] at hmem
    exact parseRowFrom_getD_none cells 1 i hi hmem

/-- Witness for claim C4: concrete instance with one cell landing at
position 3 — length 3, positions `[3]`, and the unreferenced position 1
reads back `None`. -/
theorem claim_C4_witness :
    (parse_row [Cell.mk (some 3) (some "c")]).length =
        (cellPositions 1 [Cell.mk (some 3) (some "c")]).foldr max 0
    ∧ (parse_row [Cell.mk (some 3) (some "c")]).getD 0 none = none :=
  ⟨(claim_C4 [Cell.mk (some 3) (some "c")]).1,
    (claim_C4 [Cell.mk (some 3) (some "c")]).2.2.1 0 (by decide) (by decide)⟩

/-! ### Claims C5, C6, C7: filename token parsing -/

theorem parse_filename_eq_none (fn : String) (h : treadmillIdxOf fn = none) :
    parse_filename fn = Except.error ExtractError.missingTreadmill := by
  unfold treadmillIdxOf at h
  simp only [parse_filename]
  rw [h]

theorem parse_filename_eq_some (fn : String) (ti : Nat) (h : treadmillIdxOf fn = some ti) :
    parse_filename fn =
      if (fnTokens fn).length < ti + 11 then Except.error ExtractError.insufficientTokens
      else Except.ok ((fnTokens fn).headD "",
        " ".intercalate (((fnTokens fn).drop 1).take (ti - 1)),
        (fnTokens fn).getD (ti + 9) "",
        classifyMusic ((fnTokens fn).getD (ti + 10) "")) := by
  unfold treadmillIdxOf at h
  simp only [parse_filename]
  rw [h]

/-- Claim C5 (amended): `parse_filename` fails iff the literal token
`"Treadmill"` is absent from the underscore-split filename, or the token
count is below the Treadmill index plus 11 — equivalently, there are fewer
than 10 tokens strictly after the Treadmill index (the stated bound of 11
tokens strictly after is off by one); on success the tokens at offsets +9
and +10 from the Treadmill index exist, the former returned as the session
label and the latter fed to the music classification. -/
theorem claim_C5 (fn : String) :
    ((∃ e, parse_filename fn = Except.error e) ↔
      (treadmillIdxOf fn = none ∨
        ∃ ti, treadmillIdxOf fn = some ti ∧ (fnTokens fn).length < ti + 11))
  ∧ (∀ s n sess m, parse_filename fn = Except.ok (s, n, sess, m) →
      ∃ ti, treadmillIdxOf fn = some ti ∧ ti + 10 < (fnTokens fn).length ∧
        sess = (fnTokens fn).getD (ti + 9) "" ∧
        m = classifyMusic ((fnTokens fn).getD (ti + 10) "")) := by
  cases hti : treadmillIdxOf fn with
  | none =>
    rw [parse_filename_eq_none fn hti]
    exact ⟨⟨fun _ => Or.inl rfl, fun _ => ⟨_, rfl⟩⟩,
      fun s n sess m hok => absurd hok (by simp)⟩
  | some ti =>
    rw [parse_filename_eq_some fn ti hti]
    by_cases hcnt : (fnTokens fn).length < ti + 11
    · rw [if_pos hcnt]
      exact ⟨⟨fun _ => Or.inr ⟨ti, rfl, hcnt⟩, fun _ => ⟨_, rfl⟩⟩,
        fun s n sess m hok => absurd hok (by simp)⟩
    · rw [if_neg hcnt]
      constructor
      · constructor
        · rintro ⟨e, he⟩
          exact absurd he (by simp)
        · rintro (h | ⟨ti', hti', hcnt'⟩)
          · exact absurd h (by simp)
          · cases hti'
            exact absurd hcnt' hcnt
      · intro s n sess m hok
        simp only [Except.ok.injEq, Prod.mk.injEq] at hok
        exact ⟨ti, rfl, by omega, hok.2.2.1.symm, hok.2.2.2.symm⟩

/-- Witness for claim C5: the sample filename succeeds and its session and
music tokens sit at offsets +9 and +10 from the Treadmill index. -/
theorem claim_C5_witness :
    ∃ ti, treadmillIdxOf sampleName = some ti ∧ ti + 10 < (fnTokens sampleName).length ∧
      "T1" = (fnTokens sampleName).getD (ti + 9) "" ∧
      "no musica" = classifyMusic ((fnTokens sampleName).getD (ti + 10) "") :=
  (claim_C5 sampleName).2 "Rossi" "Mario" "T1" "no musica" (by decide)

/-- Counterexample to claim C5 as stated: a filename with exactly 10 tokens
strictly after the Treadmill index ("not at least 11 tokens after") is
accepted by the source, not rejected. -/
theorem claim_C5_counterexample : ¬ C5AsStated := by
  intro h
  have h2 := (h "A_Treadmill_1_2_3_4_5_6_7_8_9_10").mpr
    (Or.inr ⟨1, by decide, by decide⟩)
  exact absurd h2 (by decide)

/-- Claim C6: the music token is first stripped of its `.`-delimited
suffix, then classified through its uppercased form — prefix `NM` gives
`"no musica"`, else prefix `M` gives `"musica"`, else the stripped token
passes through unchanged (classification is total, so it never fails);
`"NM2"`, `"M1"` and `"XYZ"` classify as stated. -/
theorem claim_C6 :
    (∀ raw, hasPrefixChars "NM".toList ((stripDot raw).toList.map Char.toUpper) = true →
        classifyMusic raw = "no musica")
  ∧ (∀ raw, hasPrefixChars "NM".toList ((stripDot raw).toList.map Char.toUpper) = false →
      hasPrefixChars "M".toList ((stripDot raw).toList.map Char.toUpper) = true →
        classifyMusic raw = "musica")
  ∧ (∀ raw, hasPrefixChars "NM".toList ((stripDot raw).toList.map Char.toUpper) = false →
      hasPrefixChars "M".toList ((stripDot raw).toList.map Char.toUpper) = false →
        classifyMusic raw = stripDot raw)
  ∧ classifyMusic "NM2" = "no musica" ∧ classifyMusic "M1" = "musica"
  ∧ classifyMusic "XYZ" = "XYZ" := by
  refine ⟨?_, ?_, ?_, by decide, by decide, by decide⟩
  · intro raw h
    unfold classifyMusic
    split
    · rfl
    · next h' => exact absurd h h'
  · intro raw h1 h2
    unfold classifyMusic
    split
    · next h' => exact absurd (h1.symm.trans h') Bool.false_ne_true
    · rfl
  · intro raw h1 h2
    unfold classifyMusic
    split
    · next h' => exact absurd (h1.symm.trans h') Bool.false_ne_true
    · split
      · next h' => exact absurd (h2.symm.trans h') Bool.false_ne_true
      · rfl

/-- Witness for claim C6: a lowercase token with a dotted suffix lands in
the `"no musica"` branch. -/
theorem claim_C6_witness : classifyMusic "nm1.x" = "no musica" :=
  claim_C6.1 "nm1.x" (by decide)

/-- Claim C7: on success the surname is token 0 and the given name is the
tokens strictly between index 0 and the Treadmill index joined with single
spaces (empty when there are none); the documented example filename yields
surname `"Doe"` and given name `"John"`. -/
theorem claim_C7 :
    (∀ fn s n sess m ti, parse_filename fn = Except.ok (s, n, sess, m) →
      treadmillIdxOf fn = some ti →
      s = (fnTokens fn).headD "" ∧
      n = " ".intercalate (((fnTokens fn).take ti).drop 1) ∧
      (ti ≤ 1 → n = ""))
  ∧ (∃ sess m, parse_filename "Doe_John_Treadmill_8_km_h_01_01_2024_10_00_00_S1_M.xml" =
      Except.ok ("Doe", "John", sess, m)) := by
  constructor
  · intro fn s n sess m ti hok hti
    rw [parse_filename_eq_some fn ti hti] at hok
    by_cases hcnt : (fnTokens fn).length < ti + 11
    · rw [if_pos hcnt] at hok
      exact absurd hok (by simp)
    · rw [if_neg hcnt] at hok
      simp only [Except.ok.injEq, Prod.mk.injEq] at hok
      refine ⟨hok.1.symm, ?_, ?_⟩
      · rw [List.drop_take]
        exact hok.2.1.symm
      · intro hle
        have h0 : ti - 1 = 0 := by omega
        have hn := hok.2.1.symm
        rw [h0, List.take_zero] at hn
        simpa [String.intercalate] using hn
  · exact ⟨"00", "S1", by decide⟩

/-- Witness for claim C7: the surname/name decomposition at the sample
filename. -/
theorem claim_C7_witness :
    "Rossi" = (fnTokens sampleName).headD "" ∧
      "Mario" = " ".intercalate (((fnTokens sampleName).take 2).drop 1) :=
  ⟨(claim_C7.1 sampleName "Rossi" "Mario" "T1" "no musica" 2 (by decide) (by decide)).1,
    (claim_C7.1 sampleName "Rossi" "Mario" "T1" "no musica" 2 (by decide) (by decide)).2.1⟩

/-! ### Evaluation lemmas for the trial extractor -/

theorem stopSearch_eq_none (rows : Table)
    (h : firstIdx (isStopRow (tableHashCol rows)) rows = none) :
    stopSearch rows = Except.error ExtractError.noValidStop := by
  unfold stopSearch
  rw [h]

theorem stopSearch_eq_cellNone (rows : Table) (i : Nat)
    (h1 : firstIdx (isStopRow (tableHashCol rows)) rows = some i)
    (h2 : (rows.getD i []).getD (tableTempoCol rows) none = none) :
    stopSearch rows = Except.error ExtractError.noValidStop := by
  simp only [stopSearch, h1, h2]

theorem stopSearch_eq_cellEmpty (rows : Table) (i : Nat) (s : String)
    (h1 : firstIdx (isStopRow (tableHashCol rows)) rows = some i)
    (h2 : (rows.getD i []).getD (tableTempoCol rows) none = some s)
    (h3 : s.toList.isEmpty = true) :
    stopSearch rows = Except.error ExtractError.noValidStop := by
  simp only [stopSearch, h1, h2, h3, if_true]

theorem stopSearch_eq_badParse (rows : Table) (i : Nat) (s : String)
    (h1 : firstIdx (isStopRow (tableHashCol rows)) rows = some i)
    (h2 : (rows.getD i []).getD (tableTempoCol rows) none = some s)
    (h3 : s.toList.isEmpty = false) (h4 : parseComma s = none) :
    stopSearch rows = Except.error (ExtractError.invalidStopTime s) := by
  simp only [stopSearch, h1, h2, h3, h4, Bool.false_eq_true, if_false]

theorem stopSearch_eq_ok (rows : Table) (i : Nat) (s : String) (t : ℚ)
    (h1 : firstIdx (isStopRow (tableHashCol rows)) rows = some i)
    (h2 : (rows.getD i []).getD (tableTempoCol rows) none = some s)
    (h3 : s.toList.isEmpty = false) (h4 : parseComma s = some t) :
    stopSearch rows = Except.ok (i, t) := by
  simp only [stopSearch, h1, h2, h3, h4, Bool.false_eq_true, if_false]

theorem stopSearch_ok_inv (rows : Table) (i : Nat) (t : ℚ)
    (h : stopSearch rows = Except.ok (i, t)) :
    firstIdx (isStopRow (tableHashCol rows)) rows = some i ∧
    ∃ s, (rows.getD i []).getD (tableTempoCol rows) none = some s ∧
      s.toList.isEmpty = false ∧ parseComma s = some t := by
  unfold stopSearch at h
  split at h
  · exact absurd h (by simp)
  · next k hfi =>
    split at h
    · exact absurd h (by simp)
    · next s hs =>
      split at h
      · exact absurd h (by simp)
      · next he =>
        split at h
        · exact absurd h (by simp)
        · next v hv =>
          simp only [Except.ok.injEq, Prod.mk.injEq] at h
          obtain ⟨rfl, rfl⟩ := h
          exact ⟨hfi, s, hs, by simpa using he, hv⟩

theorem process_table_eq_err_len (rows : Table) (fn : String)
    (hlen : rows.length < 2) :
    process_table rows fn = Except.error ExtractError.insufficientRows := by
  unfold process_table
  rw [if_pos hlen]

theorem process_table_eq_err_fn (rows : Table) (fn : String) (e : ExtractError)
    (hlen : ¬ rows.length < 2) (hm : parse_filename fn = Except.error e) :
    process_table rows fn = Except.error e := by
  unfold process_table
  rw [if_neg hlen, hm]

theorem process_table_eq_err_stop (rows : Table) (fn : String)
    (m : String × String × String × String) (e : ExtractError)
    (hlen : ¬ rows.length < 2) (hm : parse_filename fn = Except.ok m)
    (hs : stopSearch rows = Except.error e) :
    process_table rows fn = Except.error e := by
  unfold process_table
  rw [if_neg hlen, hm, hs]

theorem process_table_eq_ok (rows : Table) (fn : String)
    (m : String × String × String × String) (i : Nat) (t : ℚ)
    (hlen : ¬ rows.length < 2) (hm : parse_filename fn = Except.ok m)
    (hs : stopSearch rows = Except.ok (i, t)) :
    process_table rows fn = Except.ok (buildResult rows m i t) := by
  unfold process_table
  rw [if_neg hlen, hm, hs]

theorem process_table_ok_inv (rows : Table) (fn : String) (r : TrialResult)
    (h : process_table rows fn = Except.ok r) :
    2 ≤ rows.length ∧ ∃ m i t, parse_filename fn = Except.ok m ∧
      stopSearch rows = Except.ok (i, t) ∧ r = buildResult rows m i t := by
  by_cases hlen : rows.length < 2
  · rw [process_table_eq_err_len rows fn hlen] at h
    exact absurd h (by simp)
  · cases hm : parse_filename fn with
    | error e =>
      rw [process_table_eq_err_fn rows fn e hlen hm] at h
      exact absurd h (by simp)
    | ok m =>
      cases hs : stopSearch rows with
      | error e =>
        rw [process_table_eq_err_stop rows fn m e hlen hm hs] at h
        exact absurd h (by simp)
      | ok p =>
        obtain ⟨i, t⟩ := p
        rw [process_table_eq_ok rows fn m i t hlen hm hs] at h
        simp only [Except.ok.injEq] at h
        exact ⟨by omega, m, i, t, rfl, rfl, h.symm⟩

theorem range'_map_getD (f : Nat → Option ℚ) :
    ∀ n s j, j < n → ((List.range' s n).map f).getD j none = f (s + j) := by
  intro n
  induction n with
  | zero => intro s j h; exact absurd h (by omega)
  | succ m ih =>
    intro s j h
    rw [List.range'_succ]
    cases j with
    | zero => simp
    | succ j' =>
      simp only [List.map_cons, List.getD_cons_succ]
      rw [ih (s + 1) j' (by omega)]
      congr 1
      omega

theorem reduceCols_length (tc ncols : Nat) (rows : Table) :
    (reduceCols tc ncols rows).length = ncols - (tc + 1) := by
  simp [reduceCols]

theorem reduceCols_getD (tc ncols : Nat) (rows : Table) (j : Nat)
    (h : j < ncols - (tc + 1)) :
    (reduceCols tc ncols rows).getD j none =
      if j = 0 then (colValues (tc + 1) rows).getLast?
      else colMean (tc + 1 + j) rows := by
  unfold reduceCols
  rw [range'_map_getD _ _ _ _ h]
  by_cases hj : j = 0
  · subst hj
    rw [if_pos rfl, if_pos (by omega)]
  · rw [if_neg (by omega), if_neg hj]

theorem process_table_append (pre ext : Table) (fn : String)
    (hlen : 2 ≤ pre.length)
    (hst : (firstIdx (isStopRow (tableHashCol pre)) pre).isSome = true) :
    process_table (pre ++ ext) fn = process_table pre fn := by
  obtain ⟨p, hk⟩ := Option.isSome_iff_exists.mp hst
  have hne : pre ≠ [] := by
    intro hh
    rw [hh] at hlen
    simp at hlen
  have hhead : (pre ++ ext).headD [] = pre.headD [] := by
    cases pre with
    | nil => exact absurd rfl hne
    | cons a t => rfl
  have hhash : tableHashCol (pre ++ ext) = tableHashCol pre := by
    unfold tableHashCol
    rw [hhead]
  have htempo : tableTempoCol (pre ++ ext) = tableTempoCol pre := by
    unfold tableTempoCol
    rw [hhead]
  have hklen : p < pre.length := (firstIdx_eq_some_facts _ [] pre p hk).1
  have hfi : firstIdx (isStopRow (tableHashCol (pre ++ ext))) (pre ++ ext) = some p := by
    rw [hhash]
    exact firstIdx_append _ _ _ p hk
  have hgetD : (pre ++ ext).getD p [] = pre.getD p [] := List.getD_append _ _ _ _ hklen
  have hstop : stopSearch (pre ++ ext) = stopSearch pre := by
    simp only [stopSearch, hfi, hk, htempo, hgetD]
  have hlen2 : ¬ (pre ++ ext).length < 2 := by
    simp only [List.length_append]
    omega
  have hlen1 : ¬ pre.length < 2 := by omega
  cases hm : parse_filename fn with
  | error e =>
    rw [process_table_eq_err_fn _ _ _ hlen2 hm, process_table_eq_err_fn _ _ _ hlen1 hm]
  | ok m =>
    cases hsp : stopSearch pre with
    | error e =>
      rw [process_table_eq_err_stop _ _ m _ hlen2 hm (hstop.trans hsp),
        process_table_eq_err_stop _ _ m _ hlen1 hm hsp]
    | ok pt =>
      obtain ⟨k, t⟩ := pt
      have hinv := stopSearch_ok_inv pre k t hsp
      have hkp : k = p := by
        have := hinv.1.symm.trans hk
        simpa using this
      subst hkp
      rw [process_table_eq_ok _ _ m k t hlen2 hm (hstop.trans hsp),
        process_table_eq_ok _ _ m k t hlen1 hm hsp]
      simp only [buildResult, windowRows, Except.ok.injEq]
      rw [hhead, htempo, List.take_append_of_le_length (by omega)]

/-! ### Claim C10: header-name lookup with positional fallback -/

theorem headerCol_of_not_mem (header : Row) (nm : String) (fb : Nat)
    (h : ¬ some nm ∈ header) : headerCol header nm fb = fb := by
  unfold headerCol
  have hn : firstIdx (fun c => c == some nm) header = none := by
    rw [firstIdx_eq_none_iff]
    intro a ha
    by_cases he : a = some nm
    · exact absurd (he ▸ ha) h
    · exact beq_eq_false_iff_ne.mpr he
  rw [hn]

theorem headerCol_of_mem (header : Row) (nm : String) (fb : Nat)
    (h : some nm ∈ header) :
    headerCol header nm fb < header.length ∧
    header.getD (headerCol header nm fb) none = some nm ∧
    ∀ j < headerCol header nm fb, header.getD j none ≠ some nm := by
  unfold headerCol
  cases hfi : firstIdx (fun c => c == some nm) header with
  | none =>
    exfalso
    rw [firstIdx_eq_none_iff] at hfi
    have := hfi (some nm) h
    simp at this
  | some k =>
    obtain ⟨h1, h2, h3⟩ := firstIdx_eq_some_facts _ none header k hfi
    refine ⟨h1, by simpa using h2, fun j hj => ?_⟩
    have := h3 j hj
    simpa using this

/-- Claim C10: the marker column defaults to fixed index 23 when no header
cell equals `"#"`, and the time column to fixed index 25 when no header cell
equals `"Tempo[s]"`; whenever the named header is present, the column is the
index of the first matching header cell (so the name-based lookup takes
precedence over the positional fallback). -/
theorem claim_C10 (rows : Table) :
    (¬ some "#" ∈ rows.headD [] → tableHashCol rows = 23)
  ∧ (¬ some "Tempo[s]" ∈ rows.headD [] → tableTempoCol rows = 25)
  ∧ (some "#" ∈ rows.headD [] →
      tableHashCol rows < (rows.headD []).length ∧
      (rows.headD []).getD (tableHashCol rows) none = some "#" ∧
      ∀ j < tableHashCol rows, (rows.headD []).getD j none ≠ some "#")
  ∧ (some "Tempo[s]" ∈ rows.headD [] →
      tableTempoCol rows < (rows.headD []).length ∧
      (rows.headD []).getD (tableTempoCol rows) none = some "Tempo[s]" ∧
      ∀ j < tableTempoCol rows, (rows.headD []).getD j none ≠ some "Tempo[s]") :=
  ⟨fun h => headerCol_of_not_mem _ _ _ h,
   fun h => headerCol_of_not_mem _ _ _ h,
   fun h => headerCol_of_mem _ _ _ h,
   fun h => headerCol_of_mem _ _ _ h⟩

/-- Witness for claim C10: the fallbacks fire on the headerless
counterexample table, and the named lookup fires on the sample table. -/
theorem claim_C10_witness :
    tableHashCol cxTable = 23 ∧ tableTempoCol cxTable = 25 ∧
      (sampleRows.headD []).getD (tableHashCol sampleRows) none = some "#" ∧
      (sampleRows.headD []).getD (tableTempoCol sampleRows) none = some "Tempo[s]" :=
  ⟨(claim_C10 cxTable).1 (by decide), (claim_C10 cxTable).2.1 (by decide),
   ((claim_C10 sampleRows).2.2.1 (by decide)).2.1,
   ((claim_C10 sampleRows).2.2.2 (by decide)).2.1⟩

/-! ### Claim C8: STOP-row search and its error taxonomy -/

/-- Claim C8 (amended): the scan for the sentinel `"Impulso esterno STOP"`
runs over all reconstructed rows including the header (not only the data
rows) and selects the first row whose marker cell contains the substring;
if no row contains the sentinel the extractor fails with the shared
`noValidStop` error; if the selected row's time cell is missing or empty it
fails with that same shared error (not with the dedicated
unparseable-stop-time error); if the cell is non-empty but unparsable it
fails with the dedicated `invalidStopTime` error; otherwise the result is
built with `window.stop` equal to the parsed value. -/
theorem claim_C8 (rows : Table) (fn : String) (m : String × String × String × String)
    (hlen : 2 ≤ rows.length) (hfn : parse_filename fn = Except.ok m) :
    ((∀ row ∈ rows, isStopRow (tableHashCol rows) row = false) →
      process_table rows fn = Except.error ExtractError.noValidStop)
  ∧ (∀ i, i < rows.length → isStopRow (tableHashCol rows) (rows.getD i []) = true →
      (∀ j < i, isStopRow (tableHashCol rows) (rows.getD j []) = false) →
      (((rows.getD i []).getD (tableTempoCol rows) none = none ∨
          (rows.getD i []).getD (tableTempoCol rows) none = some "") →
        process_table rows fn = Except.error ExtractError.noValidStop)
      ∧ (∀ s, (rows.getD i []).getD (tableTempoCol rows) none = some s →
          s.toList.isEmpty = false → parseComma s = none →
          process_table rows fn = Except.error (ExtractError.invalidStopTime s))
      ∧ (∀ s v, (rows.getD i []).getD (tableTempoCol rows) none = some s →
          s.toList.isEmpty = false → parseComma s = some v →
          process_table rows fn = Except.ok (buildResult rows m i v) ∧
            (buildResult rows m i v).t_stop = v)) := by
  have hlen' : ¬ rows.length < 2 := by omega
  constructor
  · intro hall
    have hnone : firstIdx (isStopRow (tableHashCol rows)) rows = none :=
      (firstIdx_eq_none_iff _ _).mpr hall
    exact process_table_eq_err_stop rows fn m _ hlen' hfn (stopSearch_eq_none rows hnone)
  · intro i hi hstop hbefore
    have hfi : firstIdx (isStopRow (tableHashCol rows)) rows = some i :=
      firstIdx_eq_some_of _ [] rows i hi hstop hbefore
    refine ⟨?_, ?_, ?_⟩
    · rintro (hc | hc)
      · exact process_table_eq_err_stop rows fn m _ hlen' hfn
          (stopSearch_eq_cellNone rows i hfi hc)
      · exact process_table_eq_err_stop rows fn m _ hlen' hfn
          (stopSearch_eq_cellEmpty rows i "" hfi hc (by decide))
    · intro s hs hne hparse
      exact process_table_eq_err_stop rows fn m _ hlen' hfn
        (stopSearch_eq_badParse rows i s hfi hs hne hparse)
    · intro s v hs hne hparse
      exact ⟨process_table_eq_ok rows fn m i v hlen' hfn
        (stopSearch_eq_ok rows i s v hfi hs hne hparse), rfl⟩

/-- Witness for claim C8: on the sample table the STOP row is row 3, its
time cell parses to 900, and the extractor succeeds with that stop time. -/
theorem claim_C8_witness :
    process_table sampleRows sampleName = Except.ok (buildResult sampleRows sampleMeta 3 900) ∧
      (buildResult sampleRows sampleMeta 3 900).t_stop = 900 :=
  ((claim_C8 sampleRows sampleName sampleMeta (by decide) (by decide)).2 3 (by decide)
    (by decide) (by decide)).2.2 "900" 900 (by decide) (by decide) (by decide)

/-- Counterexample to claim C8 as stated: (1) on `cxTable` the source
selects the header row (stop time 100) although the first data row carrying
the sentinel has time 50, refuting the claim that only data rows are
scanned; (2) on `cxEmptyTable` the STOP row's empty time cell produces the
shared `noValidStop` error, not the dedicated unparseable-stop-time
error. -/
theorem claim_C8_counterexample : ¬ C8ScanAsStated ∧ ¬ C8EmptyTimeAsStated := by
  constructor
  · intro h
    have hok : process_table cxTable sampleName =
        Except.ok (buildResult cxTable sampleMeta 0 (100 : ℚ)) :=
      process_table_eq_ok _ _ _ _ _ (by decide) (by decide)
        (stopSearch_eq_ok cxTable 0 "100" 100 (by decide) (by decide) (by decide) (by decide))
    obtain ⟨i, hi, s, hsi, hps⟩ := h cxTable sampleName _ hok
    have hi0 : firstIdx (isStopRow (tableHashCol cxTable)) (cxTable.drop 1) = some 0 := by
      decide
    have hieq : i = 0 := by
      have := hi0.symm.trans hi
      simpa using this.symm
    subst hieq
    have hcell : (cxTable.getD 1 []).getD (tableTempoCol cxTable) none = some "50" := by
      decide
    have hseq : s = "50" := by
      have := hcell.symm.trans hsi
      simpa using this.symm
    subst hseq
    have h50 : parseComma "50" = some 50 := by decide
    rw [h50] at hps
    have hts : (buildResult cxTable sampleMeta 0 (100 : ℚ)).t_stop = 100 := rfl
    rw [hts] at hps
    simp only [Option.some.injEq] at hps
    norm_num at hps
  · intro h
    obtain ⟨s, hs⟩ := h cxEmptyTable sampleName 1 (by decide) (by decide) (by decide) (by decide)
    have hact : process_table cxEmptyTable sampleName = Except.error ExtractError.noValidStop :=
      process_table_eq_err_stop _ _ sampleMeta _ (by decide) (by decide)
        (stopSearch_eq_cellEmpty cxEmptyTable 1 "" (by decide) (by decide) (by decide))
    rw [hact] at hs
    simp at hs

/-! ### Claims C1 and C2: windowed reduction -/

theorem windowRows_eq_drop_take (rows : Table) (i : Nat) (t : ℚ) :
    windowRows rows i t =
      ((rows.drop 1).take (i - 1)).filter (rowInWindow (tableTempoCol rows) (t - 900) t) := by
  unfold windowRows
  rw [List.drop_take]

/-- Claim C1: in the windowed reduction, measurement slot 0 (the column
immediately right of the time column) takes the last parsable, non-blank
value of the contributing rows in row order (`getLast?` of `colValues`, not
an average), every other slot `j` takes the arithmetic mean
`sum / count` of its contributing values, and any column with zero
contributing values yields `none`, never 0. -/
theorem claim_C1 (rows : Table) (fn : String) (r : TrialResult) (i : Nat) (tS : ℚ)
    (hp : process_table rows fn = Except.ok r) (hs : stopSearch rows = Except.ok (i, tS)) :
    r.measurements.length = (rows.headD []).length - (tableTempoCol rows + 1)
  ∧ (0 < r.measurements.length →
      r.measurements.getD 0 none =
        (colValues (tableTempoCol rows + 1) (windowRows rows i tS)).getLast?)
  ∧ (∀ j, 0 < j → j < r.measurements.length →
      r.measurements.getD j none = colMean (tableTempoCol rows + 1 + j) (windowRows rows i tS))
  ∧ (∀ j vs, 0 < j → j < r.measurements.length →
      colValues (tableTempoCol rows + 1 + j) (windowRows rows i tS) = vs → vs ≠ [] →
      r.measurements.getD j none = some (vs.sum / (vs.length : ℚ)))
  ∧ (∀ j, j < r.measurements.length →
      colValues (tableTempoCol rows + 1 + j) (windowRows rows i tS) = [] →
      r.measurements.getD j none = none) := by
  obtain ⟨hlen2, m, i', t', hm, hs', hr⟩ := process_table_ok_inv rows fn r hp
  have hit := hs'.symm.trans hs
  simp only [Except.ok.injEq, Prod.mk.injEq] at hit
  obtain ⟨rfl, rfl⟩ := hit
  subst hr
  have hL : (buildResult rows m i' t').measurements =
      reduceCols (tableTempoCol rows) ((rows.headD []).length) (windowRows rows i' t') := rfl
  refine ⟨?_, ?_, ?_, ?_, ?_⟩
  · rw [hL, reduceCols_length]
  · intro h0
    rw [hL] at h0 ⊢
    rw [reduceCols_length] at h0
    rw [reduceCols_getD _ _ _ 0 h0, if_pos rfl]
  · intro j hj0 hjl
    rw [hL] at hjl ⊢
    rw [reduceCols_length] at hjl
    rw [reduceCols_getD _ _ _ j hjl, if_neg (by omega)]
  · intro j vs hj0 hjl hvs hne
    rw [hL] at hjl ⊢
    rw [reduceCols_length] at hjl
    rw [reduceCols_getD _ _ _ j hjl, if_neg (by omega)]
    simp only [colMean]
    rw [hvs, if_neg (by simpa using hne)]
  · intro j hjl hempty
    rw [hL] at hjl ⊢
    rw [reduceCols_length] at hjl
    rw [reduceCols_getD _ _ _ j hjl]
    by_cases hj : j = 0
    · subst hj
      rw [if_pos rfl]
      have he : tableTempoCol rows + 1 + 0 = tableTempoCol rows + 1 := rfl
      rw [he] at hempty
      rw [hempty]
      rfl
    · rw [if_neg hj]
      simp only [colMean]
      rw [hempty]
      rfl

/-- Witness for claim C1: on the sample table the distance column keeps the
last value 3 (values 1 then 3 — the mean would be 2), the next column is
the mean of 2 and 4, and the never-populated column is `none`. -/
theorem claim_C1_witness :
    ∃ r, process_table sampleRows sampleName = Except.ok r ∧
      r.measurements.getD 0 none = some 3 ∧
      r.measurements.getD 1 none = some 3 ∧
      r.measurements.getD 2 none = none := by
  have hst : stopSearch sampleRows = Except.ok (3, (900 : ℚ)) :=
    stopSearch_eq_ok sampleRows 3 "900" 900 (by decide) (by decide) (by decide) (by decide)
  have hp : process_table sampleRows sampleName =
      Except.ok (buildResult sampleRows sampleMeta 3 900) :=
    process_table_eq_ok _ _ _ _ _ (by decide) (by decide) hst
  have hC := claim_C1 sampleRows sampleName _ 3 900 hp hst
  have hw : windowRows sampleRows 3 (900 : ℚ) = [rowS1, rowS2] := by
    unfold windowRows
    have e : (900 : ℚ) - 900 = 0 := by norm_num
    rw [e]
    decide
  have hlen3 : (buildResult sampleRows sampleMeta 3 900).measurements.length = 3 := by
    rw [hC.1]
    decide
  refine ⟨_, hp, ?_, ?_, ?_⟩
  · rw [hC.2.1 (by rw [hlen3]; omega), hw]
    decide
  · have hv : colValues (tableTempoCol sampleRows + 1 + 1) (windowRows sampleRows 3 900) =
        [(2 : ℚ), 4] := by
      rw [hw]
      decide
    rw [hC.2.2.2.1 1 [(2 : ℚ), 4] (by omega) (by rw [hlen3]; omega) hv (by simp)]
    norm_num
  · exact hC.2.2.2.2 2 (by rw [hlen3]; omega) (by rw [hw]; decide)

/-- Claim C2: the window is `[stop - 900, stop]` with no clamping (the
start may be negative, as the witness shows); the reduction ranges exactly
over the data rows strictly before the STOP row whose time cell parses
(comma substituted) to a value inside the closed window; rows with a
missing, empty, or unparsable time cell are skipped silently; and rows at
or after the STOP row never contribute — replacing everything after a table
prefix that contains the STOP row leaves the result unchanged. -/
theorem claim_C2 (rows : Table) (fn : String) (r : TrialResult) (i : Nat) (tS : ℚ)
    (hp : process_table rows fn = Except.ok r) (hs : stopSearch rows = Except.ok (i, tS)) :
    r.t_start = r.t_stop - 900
  ∧ r.t_stop = tS
  ∧ r.measurements = reduceCols (tableTempoCol rows) ((rows.headD []).length)
      (((rows.drop 1).take (i - 1)).filter (rowInWindow (tableTempoCol rows) (tS - 900) tS))
  ∧ (∀ a b row, (row : Row).getD (tableTempoCol rows) none = none →
      rowInWindow (tableTempoCol rows) a b row = false)
  ∧ (∀ a b row s, row.getD (tableTempoCol rows) none = some s → parseComma s = none →
      rowInWindow (tableTempoCol rows) a b row = false)
  ∧ (∀ a b row s t, row.getD (tableTempoCol rows) none = some s →
      s.toList.isEmpty = false → parseComma s = some t →
      rowInWindow (tableTempoCol rows) a b row = (decide (a ≤ t) && decide (t ≤ b)))
  ∧ (∀ pre ex1 ex2 fnx, 2 ≤ (pre : Table).length →
      (firstIdx (isStopRow (tableHashCol pre)) pre).isSome = true →
      process_table (pre ++ ex1) fnx = process_table (pre ++ ex2) fnx) := by
  obtain ⟨hlen2, m, i', t', hm, hs', hr⟩ := process_table_ok_inv rows fn r hp
  have hit := hs'.symm.trans hs
  simp only [Except.ok.injEq, Prod.mk.injEq] at hit
  obtain ⟨rfl, rfl⟩ := hit
  subst hr
  refine ⟨rfl, rfl, ?_, ?_, ?_, ?_, ?_⟩
  · show reduceCols (tableTempoCol rows) ((rows.headD []).length) (windowRows rows i' t') = _
    rw [windowRows_eq_drop_take]
  · intro a b row hc
    simp only [rowInWindow, hc]
  · intro a b row s hc hpc
    simp only [rowInWindow, hc, hpc, ite_self]
  · intro a b row s t hc he hpc
    simp only [rowInWindow, hc, hpc, he, Bool.false_eq_true, if_false]
  · intro pre ex1 ex2 fnx h1 h2
    exact (process_table_append pre ex1 fnx h1 h2).trans
      (process_table_append pre ex2 fnx h1 h2).symm

/-- Witness for claim C2: the second sample table stops at time 10, so the
window start is 10 - 900 = -890, which is negative and not clamped. -/
theorem claim_C2_witness :
    ∃ r, process_table sampleRows2 sampleName = Except.ok r ∧
      r.t_start = r.t_stop - 900 ∧ r.t_stop = 10 ∧ r.t_start < 0 := by
  have hst : stopSearch sampleRows2 = Except.ok (2, (10 : ℚ)) :=
    stopSearch_eq_ok sampleRows2 2 "10" 10 (by decide) (by decide) (by decide) (by decide)
  have hp : process_table sampleRows2 sampleName =
      Except.ok (buildResult sampleRows2 sampleMeta 2 10) :=
    process_table_eq_ok _ _ _ _ _ (by decide) (by decide) hst
  have hC := claim_C2 sampleRows2 sampleName _ 2 10 hp hst
  refine ⟨_, hp, hC.1, hC.2.1, ?_⟩
  have hts : (buildResult sampleRows2 sampleMeta 2 10).t_start = (10 : ℚ) - 900 := rfl
  rw [hts]
  norm_num

/-! ### Claim C9: batch aggregation with per-file error isolation -/

theorem batch_characterization (files : List (Option (Table × String))) :
    ((process_multiple_files files).1 =
      (files.filterMap id).filterMap (fun f => (process_table f.1 f.2).toOption))
  ∧ ((process_multiple_files files).2.1 =
      ((files.filterMap id).filterMap
        (fun f => (process_table f.1 f.2).toOption)).head?.map
        (fun r => r.measurementHeaders))
  ∧ ((process_multiple_files files).2.2 =
      (files.filterMap id).filterMap (fun f =>
        match process_table f.1 f.2 with
        | Except.ok _ => none
        | Except.error e => some (f.2, e))) := by
  induction files with
  | nil => exact ⟨rfl, rfl, rfl⟩
  | cons o rest ih =>
    obtain ⟨h1, h2, h3⟩ := ih
    cases o with
    | none =>
      simpa only [process_multiple_files, List.filterMap_cons, id_eq] using ⟨h1, h2, h3⟩
    | some f =>
      obtain ⟨tbl, nm⟩ := f
      cases hp : process_table tbl nm with
      | ok r => simp [process_multiple_files, hp, Except.toOption, h1, h2, h3]
      | error e => simp [process_multiple_files, hp, Except.toOption, h1, h2, h3]

/-- Claim C9: the batch processes files independently — the results are
exactly the successful files' TrialResults in input order, the batch-wide
measurement headers come from the first success, failures are reported per
file as `(filename, error)` pairs while the other files still contribute,
and a batch with zero successes returns the empty result list rather than
failing; concretely, a 3-file batch whose middle file is malformed returns
the results of files 1 and 3 plus one reported error for file 2. -/
theorem claim_C9 (files : List (Option (Table × String))) :
    ((process_multiple_files files).1 =
      (files.filterMap id).filterMap (fun f => (process_table f.1 f.2).toOption))
  ∧ ((process_multiple_files files).2.1 =
      ((files.filterMap id).filterMap
        (fun f => (process_table f.1 f.2).toOption)).head?.map
        (fun r => r.measurementHeaders))
  ∧ ((process_multiple_files files).2.2 =
      (files.filterMap id).filterMap (fun f =>
        match process_table f.1 f.2 with
        | Except.ok _ => none
        | Except.error e => some (f.2, e)))
  ∧ (process_multiple_files [some (sampleRows, sampleName), some (cxEmptyTable, sampleName),
        some (sampleRows2, sampleName)]).1 =
      [buildResult sampleRows sampleMeta 3 900, buildResult sampleRows2 sampleMeta 2 10]
  ∧ (process_multiple_files [some (sampleRows, sampleName), some (cxEmptyTable, sampleName),
        some (sampleRows2, sampleName)]).2.2 = [(sampleName, ExtractError.noValidStop)] := by
  obtain ⟨h1, h2, h3⟩ := batch_characterization files
  have hp1 : process_table sampleRows sampleName =
      Except.ok (buildResult sampleRows sampleMeta 3 (900 : ℚ)) :=
    process_table_eq_ok _ _ _ _ _ (by decide) (by decide)
      (stopSearch_eq_ok sampleRows 3 "900" 900 (by decide) (by decide) (by decide) (by decide))
  have hp2 : process_table cxEmptyTable sampleName = Except.error ExtractError.noValidStop :=
    process_table_eq_err_stop _ _ sampleMeta _ (by decide) (by decide)
      (stopSearch_eq_cellEmpty cxEmptyTable 1 "" (by decide) (by decide) (by decide))
  have hp3 : process_table sampleRows2 sampleName =
      Except.ok (buildResult sampleRows2 sampleMeta 2 (10 : ℚ)) :=
    process_table_eq_ok _ _ _ _ _ (by decide) (by decide)
      (stopSearch_eq_ok sampleRows2 2 "10" 10 (by decide) (by decide) (by decide) (by decide))
  refine ⟨h1, h2, h3, ?_, ?_⟩
  · simp [process_multiple_files, hp1, hp2, hp3]
  · simp [process_multiple_files, hp1, hp2, hp3]
